import Mathlib

/-!
Verification development for `daily_when_tracker.py`, a terminal habit/mood
tracker.  The Python source is shallowly embedded below: the in-memory
`DataTable` becomes a list of rows, the CSV file becomes a list of lines,
`datetime.datetime` values become microsecond counts since `datetime.min`
(0001-01-01 00:00:00), and the view-switching application shell becomes a
small explicit state machine.  Fallible operations (`pd.read_csv`,
`DataFrame.astype`, `coordinate_to_cell_key`) return `Option`.
-/

namespace WhenTracker

/-! ### Python `datetime` model

A naive `datetime.datetime` is modelled as the number of microseconds since
`datetime.min` (0001-01-01T00:00:00).  `(dt - dt.min).seconds` is the
seconds-within-day component of the timedelta, i.e. seconds since midnight
of `dt`, microseconds excluded. -/

/-- Seconds since midnight of the day containing the instant,
`(dt - dt.min).seconds` in the source. -/
def secondsSinceMidnight (us : Nat) : Nat := us / 1000000 % 86400

/-- `dt.microsecond`. -/
def microsecondOf (us : Nat) : Nat := us % 1000000

/-- Days since 0001-01-01 (`dt.toordinal() - 1`). -/
def dayIndex (us : Nat) : Nat := us / 86400000000

/-- `WhenTrackerApp.round_time` (static method):

    seconds = (dt.replace(tzinfo=None) - dt.min).seconds
    rounding = (seconds + round_to / 2) // round_to * round_to
    return dt + datetime.timedelta(0, rounding - seconds, -dt.microsecond)

`round_to / 2` is Python float division; in the magnitudes involved
(`seconds < 86400`, `round_to` at most 1800 in this program) the float
arithmetic is exact and `(seconds + round_to/2) // round_to` equals the
integer floor `(2*seconds + round_to) / (2*round_to)`, which is how the
half-interval offset is rendered here.  The result is an instant, again in
microseconds since `datetime.min`. -/
def round_time (us : Nat) (roundTo : Nat) : Int :=
  (us : Int) +
    ((2 * (secondsSinceMidnight us : Int) + roundTo) / (2 * roundTo) * roundTo
        - (secondsSinceMidnight us : Int)) * 1000000 -
    (microsecondOf us : Nat)

/-- The application's only use: `self.round_time(round_to=60 * 30)`. -/
def roundTime1800 (us : Nat) : Nat := (round_time us 1800).toNat

/-- The rounding formula the specification describes: seconds since
midnight, plus half the interval, integer-divided by the interval,
multiplied back, re-attached to the day's midnight. -/
def specRoundHalfHour (us : Nat) : Nat :=
  (dayIndex us * 86400 + (secondsSinceMidnight us + 900) / 1800 * 1800) * 1000000

/-- `dt.hour`. -/
def hourOf (us : Nat) : Nat := secondsSinceMidnight us / 3600

/-- `dt.minute`. -/
def minuteOf (us : Nat) : Nat := secondsSinceMidnight us % 3600 / 60

/-- `dt.second`. -/
def secondOf (us : Nat) : Nat := secondsSinceMidnight us % 60

/-! ### Decimal integers

`str(int)` / decimal parsing, modelling how the integer score columns are
written by `DataFrame.to_csv` and read back. -/

/-- Decimal digits, least significant first; `fuel` bounds the recursion
depth and any `fuel ≥ n` is enough. -/
def natDigitsRevFuel : Nat → Nat → List Nat
  | 0, n => [n]
  | fuel + 1, n => if n < 10 then [n] else n % 10 :: natDigitsRevFuel fuel (n / 10)

/-- Decimal digits of `n`, least significant first. -/
def natDigitsRev (n : Nat) : List Nat := natDigitsRevFuel n n

/-- `str` of a non-negative integer. -/
def natToStr (n : Nat) : String := ⟨(natDigitsRev n).reverse.map Nat.digitChar⟩

/-- `str(int)`: optional minus sign followed by decimal digits. -/
def intToStr (i : Int) : String :=
  if i < 0 then "-" ++ natToStr (-i).toNat else natToStr i.toNat

/-- Numeric value of a list of decimal digit characters (most significant
first), accumulated left to right. -/
def digitsVal (cs : List Char) (acc : Nat) : Nat :=
  cs.foldl (fun a c => a * 10 + (c.toNat - 48)) acc

/-- Parse a string of decimal digits as a natural number; `none` if empty
or any character is not a digit. -/
def parseNat (s : String) : Option Nat :=
  if s.data ≠ [] ∧ s.data.all Char.isDigit then some (digitsVal s.data 0) else none

/-- Sign handling of decimal integer parsing, on the character list. -/
def parseIntList : List Char → Option Int
  | [] => none
  | c :: rest =>
    if c = '-' then (parseNat ⟨rest⟩).map (fun n => -(n : Int))
    else if c = '+' then (parseNat ⟨rest⟩).map (fun n => (n : Int))
    else (parseNat ⟨c :: rest⟩).map (fun n => (n : Int))

/-- Parse a decimal integer with an optional sign, as accepted by
`int(...)` / `DataFrame.astype(int)` on canonical integer text. -/
def parseInt (s : String) : Option Int := parseIntList s.data

/-- Zero-pad to two digits, the `%H`/`%M`/`%d`/`%m` rendering. -/
def pad2 (n : Nat) : String := if n < 10 then "0" ++ natToStr n else natToStr n

/-- Zero-pad to four digits, the `%Y` rendering. -/
def pad4 (n : Nat) : String :=
  if n < 10 then "000" ++ natToStr n
  else if n < 100 then "00" ++ natToStr n
  else if n < 1000 then "0" ++ natToStr n
  else natToStr n

/-- Proleptic-Gregorian civil date `(year, month, day)` from a day index
(days since 0001-01-01), the classic era/year-of-era/day-of-year
conversion underlying `datetime.fromordinal`. -/
def civilFromDays (d : Nat) : Nat × Nat × Nat :=
  let z := d + 306
  let era := z / 146097
  let doe := z % 146097
  let yoe := (doe - doe / 1460 + doe / 36524 - doe / 146096) / 365
  let doy := doe - (365 * yoe + yoe / 4 - yoe / 100)
  let mp := (5 * doy + 2) / 153
  let dom := doy - (153 * mp + 2) / 5 + 1
  let month := if mp < 10 then mp + 3 else mp - 9
  (yoe + era * 400 + (if month ≤ 2 then 1 else 0), month, dom)

/-- `dt.strftime("%Y-%m-%d")`. -/
def dateStr (us : Nat) : String :=
  let c := civilFromDays (dayIndex us)
  pad4 c.1 ++ "-" ++ pad2 c.2.1 ++ "-" ++ pad2 c.2.2

/-- `dt.strftime("%A")`: 0001-01-01 was a Monday, and the weekday advances
by one per day index. -/
def weekdayStr (us : Nat) : String :=
  ["Monday", "Tuesday", "Wednesday", "Thursday", "Friday", "Saturday",
    "Sunday"].getD (dayIndex us % 7) ""

/-- `dt.strftime("%H:%M")`. -/
def hmStr (us : Nat) : String := pad2 (hourOf us) ++ ":" ++ pad2 (minuteOf us)

/-! ### CSV encoding

`DataFrame.to_csv` writes comma-separated lines with `QUOTE_MINIMAL`
quoting: a field is wrapped in double quotes, with embedded quotes
doubled, exactly when it contains the delimiter, the quote character or a
line-terminator character.  `pd.read_csv` splits each line back into
fields with the matching quote handling. -/

/-- Double every `"` in a field, the quoted-field escape. -/
def escQuotes : List Char → List Char
  | [] => []
  | c :: cs => if c = '"' then '"' :: '"' :: escQuotes cs else c :: escQuotes cs

/-- `QUOTE_MINIMAL`: quote a field iff it contains `,`, `"`, or a line
terminator. -/
def needsQuote (f : List Char) : Bool :=
  f.any (fun c => c = ',' || c = '"' || c = '\n' || c = '\r')

/-- Serialize one CSV field. -/
def csvField (f : List Char) : List Char :=
  if needsQuote f then '"' :: (escQuotes f ++ ['"']) else f

/-- Serialize one CSV record: fields joined by commas. -/
def csvLine : List (List Char) → List Char
  | [] => []
  | [f] => csvField f
  | f :: fs => csvField f ++ ',' :: csvLine fs

/-- Scanner state: outside quotes, inside quotes, or just past a quote
character seen while inside quotes (which is either the closing quote or
the first half of a doubled literal quote). -/
inductive ScanState
  | out
  | inQ
  | postQ
deriving DecidableEq

/-- CSV field scanner; `acc` is the current field, reversed.  Outside
quotes a comma ends the field and a quote opens quoted mode; inside
quotes a doubled quote is a literal quote and a single quote closes
quoted mode. -/
def parseRec : ScanState → List Char → List Char → List (List Char)
  | _, [], acc => [acc.reverse]
  | .out, c :: cs, acc =>
    if c = ',' then acc.reverse :: parseRec .out cs []
    else if c = '"' then parseRec .inQ cs acc
    else parseRec .out cs (c :: acc)
  | .inQ, c :: cs, acc =>
    if c = '"' then parseRec .postQ cs acc else parseRec .inQ cs (c :: acc)
  | .postQ, c :: cs, acc =>
    if c = '"' then parseRec .inQ cs ('"' :: acc)
    else if c = ',' then acc.reverse :: parseRec .out cs []
    else parseRec .out cs (c :: acc)

/-- Split one CSV line into its fields. -/
def csvSplit (line : List Char) : List (List Char) := parseRec .out line []

/-! ### The table

`DataView` holds a `DataTable` whose rows carry the six columns
`("date", "day", "time", "task", "alertness", "energy")`.  Cell values are
modelled as the strings they print as; `get_df` coerces the two score
columns to integers (`astype`), which fails on non-numeric text. -/

/-- One row of the `DataTable`, raw cell values. -/
structure Row where
  date : String
  day : String
  time : String
  task : String
  alertness : String
  energy : String
deriving DecidableEq

/-- One row of the coerced data frame `get_df` returns: score columns are
integers. -/
structure Entry where
  date : String
  day : String
  time : String
  task : String
  alertness : Int
  energy : Int
deriving DecidableEq

/-- `Option`-valued map over a list, failing if any element fails — the
row-by-row loops of `get_df` and `read_csv`. -/
def optionMapList (f : α → Option β) : List α → Option (List β)
  | [] => some []
  | a :: l =>
    match f a, optionMapList f l with
    | some b, some bs => some (b :: bs)
    | _, _ => none

/-- Coerce one row's score columns to integers, the per-row step of
`astype({"energy": int, "alertness": int})`. -/
def entryOfRow (r : Row) : Option Entry :=
  match parseInt r.alertness, parseInt r.energy with
  | some a, some e => some ⟨r.date, r.day, r.time, r.task, a, e⟩
  | _, _ => none

/-- `DataView.get_df`: collect every row (in display order) into a frame
and coerce the `alertness` and `energy` columns to integers.  `astype`
raises on non-numeric text, modelled by `none`. -/
def get_df (rows : List Row) : Option (List Entry) :=
  optionMapList entryOfRow rows

/-- The header line `to_csv` writes for the six-column frame. -/
def headerLine : String := "date,day,time,task,alertness,energy"

/-- Serialize one coerced row the way `to_csv` prints it. -/
def serializeEntry (e : Entry) : String :=
  ⟨csvLine [e.date.data, e.day.data, e.time.data, e.task.data,
    (intToStr e.alertness).data, (intToStr e.energy).data]⟩

/-- `action_save`'s file payload: header plus one line per row of the
coerced frame; `none` when `astype` fails. -/
def saveLines (rows : List Row) : Option (List String) :=
  (get_df rows).map (fun es => headerLine :: es.map serializeEntry)

/-- Parse one CSV data line into a six-column row; `read_csv` rejects a
record with the wrong number of fields. -/
def parseRowStr (s : String) : Option Row :=
  match csvSplit s.data with
  | [d, dy, t, tk, a, e] => some ⟨⟨d⟩, ⟨dy⟩, ⟨t⟩, ⟨tk⟩, ⟨a⟩, ⟨e⟩⟩
  | _ => none

/-- `pd.read_csv` on the backing file, given as its list of lines: skip
the header, parse each data line.  An empty file is an error. -/
def loadLines : List String → Option (List Row)
  | [] => none
  | _header :: rest => optionMapList parseRowStr rest

/-- The raw row a saved `Entry` reads back as: the coerced integer scores
reappear as their canonical decimal text. -/
def rowOfEntry (e : Entry) : Row :=
  ⟨e.date, e.day, e.time, e.task, intToStr e.alertness, intToStr e.energy⟩

/-- A cell value with no line-terminator characters; such values keep the
"file = list of one-line records" reading exact.  (Entries typed into the
single-line `Input` widgets can never contain one.) -/
def csvSafeB (s : String) : Bool := !s.data.any (fun c => c = '\n' || c = '\r')

/-- A score cell holding canonical decimal integer text, as the integer
inference of `read_csv` and the `astype` coercion leave it. -/
def canonicalScore (s : String) : Bool :=
  match parseInt s with
  | some i => decide (intToStr i = s)
  | none => false

/-- In-memory rows that correspond to a well-formed persisted table. -/
def rowWF (r : Row) : Bool :=
  csvSafeB r.date && csvSafeB r.day && csvSafeB r.time && csvSafeB r.task &&
    canonicalScore r.alertness && canonicalScore r.energy

/-! ### Display sort

`DataView.sort` runs `DataTable.sort("date", "time", reverse=True)`,
i.e. Python's `sorted` (a stable merge sort) on the key tuple
`(row.date, row.time)` with `reverse=True`; `reverse` flips the
comparison but keeps equal-key rows in their original relative order. -/

/-- Python string comparison: strict lexicographic order on the code
point sequences. -/
def charListLt : List Char → List Char → Bool
  | _, [] => false
  | [], _ :: _ => true
  | c :: cs, d :: ds => if c < d then true else if d < c then false else charListLt cs ds

/-- Key comparison: `(a.date, a.time) <= (b.date, b.time)` as Python
compares string tuples, lexicographically. -/
def rowKeyLe (a b : Row) : Bool :=
  charListLt a.date.data b.date.data ||
    (a.date == b.date &&
      (charListLt a.time.data b.time.data || a.time == b.time))

/-- `DataView.sort`: stable sort, descending in the `(date, time)` key. -/
def sortRows (rows : List Row) : List Row :=
  rows.mergeSort (fun a b => rowKeyLe b a)

/-! ### `DataView.on_mount` -/

/-- The header `on_mount` writes when the backing file is missing:
`", ".join(COLS)` — note the comma-space delimiter. -/
def initHeader : String := "date, day, time, task, alertness, energy"

/-- The file created on first run: that single header line, no data
rows. -/
def initFile : List String := [initHeader]

/-- `DataView.on_mount`: if the backing file exists, read it and fill the
table; otherwise create the header-only file and leave the table empty;
in both cases sort the view.  Returns (display rows, file lines). -/
def on_mount (fileExists : Bool) (fileLines : List String) :
    Option (List Row × List String) :=
  if fileExists then (loadLines fileLines).map (fun rows => (sortRows rows, fileLines))
  else some (sortRows [], initFile)

/-! ### Application shell

`WhenTrackerApp` toggles which of the three panels is visible
(`styles.display`); the panel whose display is `"block"` is the current
view.  Alongside the view the shell owns the table rows (in display
order), the cursor row, the three input field values, and the backing
file. -/

/-- The three mutually exclusive panels. -/
inductive View
  | Table
  | Form
  | Chart
deriving DecidableEq

/-- Application state: current view, table rows in display order, cursor
row index, the three input field values, and the backing file's lines. -/
structure AppState where
  view : View
  rows : List Row
  cursor : Nat
  task : String
  alertness : String
  energy : String
  file : List String
deriving DecidableEq

/-- `Length(minimum=1, maximum=255)` on the task field. -/
def taskValid (s : String) : Bool :=
  decide (1 ≤ s.length) && decide (s.length ≤ 255)

/-- `Integer(minimum=1, maximum=10)` on a score field (the input is
`type="integer"`, so only integer-shaped text can be entered). -/
def scoreValid (s : String) : Bool :=
  match parseInt s with
  | some i => decide (1 ≤ i) && decide (i ≤ 10)
  | none => false

/-- The row `submit_entries` builds: the rounded current time rendered by
`strftime`, followed by the three input values in document order. -/
def newRow (nowUs : Nat) (task alertness energy : String) : Row :=
  ⟨dateStr (roundTime1800 nowUs), weekdayStr (roundTime1800 nowUs),
    hmStr (roundTime1800 nowUs), task, alertness, energy⟩

/-- `WhenTrackerApp.submit_entries`: re-validate every field; on any
failure return before touching anything; otherwise append the new row,
clear the three inputs, re-sort the table and show it.  `nowUs` is
`datetime.datetime.now()`. -/
def submit_entries (s : AppState) (nowUs : Nat) : AppState :=
  if taskValid s.task && scoreValid s.alertness && scoreValid s.energy then
    { s with
      rows := sortRows (s.rows ++ [newRow nowUs s.task s.alertness s.energy]),
      task := "", alertness := "", energy := "", view := View.Table }
  else s

/-- `WhenTrackerApp.action_remove_row`: only acts when the data view is
displayed; `coordinate_to_cell_key(cursor_coordinate)` raises
`CellDoesNotExist` (here `none`) when the cursor coordinate is not a
valid row, which is always the case on an empty table. -/
def action_remove_row (s : AppState) : Option AppState :=
  if s.view = View.Table then
    if s.cursor < s.rows.length then
      some { s with rows := s.rows.eraseIdx s.cursor }
    else none
  else some s

/-- `WhenTrackerApp.action_save`: write the coerced frame to the backing
file; `get_df`'s `astype` failure (non-numeric score text) propagates. -/
def action_save (s : AppState) : Option AppState :=
  (saveLines s.rows).map (fun ls => { s with file := ls })

/-- `WhenTrackerApp.action_add_row`: show the entry form. -/
def action_add_row (s : AppState) : AppState := { s with view := View.Form }

/-- `WhenTrackerApp.action_show_plots`: show the chart panel and render
the default "total" chart, which reads the frame through `get_df`. -/
def action_show_plots (s : AppState) : Option AppState :=
  (get_df s.rows).map (fun _ => { s with view := View.Chart })

/-! ### Charts

Each plot handler reads the coerced frame, takes
`x = sorted(df.time.unique())` and
`y = df[[...]].groupby("time").median()`; `groupby` sorts its keys
ascending, so `y` aligns with `x`. -/

/-- Python `<=` on strings: lexicographic on code points. -/
def strLe (a b : String) : Bool := charListLt a.data b.data || a == b

/-- `sorted(df.time.unique())`: the distinct time values, ascending. -/
def uniqueTimesSorted (es : List Entry) : List String :=
  ((es.map Entry.time).dedup).mergeSort strLe

/-- Pandas median of an integer column: middle of the sorted values, or
the mean of the two middles for an even count. -/
def medianQ (l : List Int) : ℚ :=
  if (l.mergeSort (fun a b => decide (a ≤ b))).length % 2 = 1 then
    (((l.mergeSort (fun a b => decide (a ≤ b))).getD
      ((l.mergeSort (fun a b => decide (a ≤ b))).length / 2) 0 : Int) : ℚ)
  else
    ((((l.mergeSort (fun a b => decide (a ≤ b))).getD
        ((l.mergeSort (fun a b => decide (a ≤ b))).length / 2 - 1) 0 +
      (l.mergeSort (fun a b => decide (a ≤ b))).getD
        ((l.mergeSort (fun a b => decide (a ≤ b))).length / 2) 0 : Int) : ℚ)) / 2

/-- The metric values of the bucket for time `t`. -/
def bucketValues (es : List Entry) (t : String) (metric : Entry → Int) : List Int :=
  (es.filter (fun e => e.time = t)).map metric

/-- One bar chart series: buckets ascending by time, each paired with the
median of the metric over its bucket. -/
def plotSeries (es : List Entry) (metric : Entry → Int) : List (String × ℚ) :=
  (uniqueTimesSorted es).map (fun t => (t, medianQ (bucketValues es t metric)))

/-- `WhenTrackerApp.plot_total`: `df["total"] = df.energy + df.alertness`. -/
def plot_total (es : List Entry) : List (String × ℚ) :=
  plotSeries es (fun e => e.energy + e.alertness)

/-- `WhenTrackerApp.plot_alertness`. -/
def plot_alertness (es : List Entry) : List (String × ℚ) :=
  plotSeries es Entry.alertness

/-- `WhenTrackerApp.plot_energy`. -/
def plot_energy (es : List Entry) : List (String × ℚ) :=
  plotSeries es Entry.energy

/-! ## Theorems -/

/-! ### CSV round trip -/

theorem step_out_comma (l acc : List Char) :
    parseRec .out (',' :: l) acc = acc.reverse :: parseRec .out l [] := rfl

theorem step_out_quote (l acc : List Char) :
    parseRec .out ('"' :: l) acc = parseRec .inQ l acc := rfl

theorem step_out_other {c : Char} (h1 : ¬c = ',') (h2 : ¬c = '"')
    (l acc : List Char) : parseRec .out (c :: l) acc = parseRec .out l (c :: acc) := by
  simp [parseRec, h1, h2]

theorem step_inQ_quote (l acc : List Char) :
    parseRec .inQ ('"' :: l) acc = parseRec .postQ l acc := rfl

theorem step_inQ_other {c : Char} (h : ¬c = '"') (l acc : List Char) :
    parseRec .inQ (c :: l) acc = parseRec .inQ l (c :: acc) := by
  simp [parseRec, h]

theorem step_postQ_quote (l acc : List Char) :
    parseRec .postQ ('"' :: l) acc = parseRec .inQ l ('"' :: acc) := rfl

theorem step_postQ_comma (l acc : List Char) :
    parseRec .postQ (',' :: l) acc = acc.reverse :: parseRec .out l [] := rfl

theorem parseRec_unquoted (f : List Char) (h : ∀ c ∈ f, ¬(c = ',' ∨ c = '"')) :
    ∀ (rest acc : List Char),
      parseRec .out (f ++ rest) acc = parseRec .out rest (f.reverse ++ acc) := by
  induction f with
  | nil => simp
  | cons c f ih =>
    intro rest acc
    have hc := h c (by simp)
    rw [List.cons_append,
      step_out_other (fun hc' => hc (Or.inl hc')) (fun hc' => hc (Or.inr hc')),
      ih (fun d hd => h d (by simp [hd])) rest (c :: acc)]
    simp

theorem parseRec_quoted (f : List Char) :
    ∀ (rest acc : List Char),
      parseRec .inQ (escQuotes f ++ '"' :: rest) acc =
        parseRec .postQ rest (f.reverse ++ acc) := by
  induction f with
  | nil => intro rest acc; rw [escQuotes, List.nil_append, step_inQ_quote]; simp
  | cons c f ih =>
    intro rest acc
    by_cases hc : c = '"'
    · subst hc
      rw [show escQuotes ('"' :: f) = '"' :: '"' :: escQuotes f from by simp [escQuotes],
        List.cons_append, List.cons_append, step_inQ_quote, step_postQ_quote,
        ih rest ('"' :: acc)]
      simp
    · rw [show escQuotes (c :: f) = c :: escQuotes f from by simp [escQuotes, hc],
        List.cons_append, step_inQ_other hc, ih rest (c :: acc)]
      simp

theorem needsQuote_eq_false {f : List Char} (h : needsQuote f = false) :
    ∀ c ∈ f, ¬(c = ',' ∨ c = '"') := by
  intro c hc
  simp only [needsQuote, List.any_eq_false] at h
  have := h c hc
  simp only [Bool.or_eq_true, decide_eq_true_eq, not_or] at this
  tauto

/-- Parsing a serialized field followed by a comma recovers the field. -/
theorem parseRec_csvField_comma (f rest : List Char) :
    parseRec .out (csvField f ++ ',' :: rest) [] = f :: parseRec .out rest [] := by
  unfold csvField
  by_cases hq : needsQuote f
  · rw [if_pos hq]
    show parseRec .out ('"' :: (escQuotes f ++ ['"'] ++ ',' :: rest)) [] = _
    rw [step_out_quote, List.append_assoc, List.singleton_append,
      parseRec_quoted f (',' :: rest) [], step_postQ_comma]
    simp
  · rw [if_neg (by simp [hq]),
      parseRec_unquoted f (needsQuote_eq_false (by simpa using hq)) (',' :: rest) [],
      step_out_comma]
    simp

/-- Parsing a serialized final field recovers the field. -/
theorem parseRec_csvField_last (f : List Char) :
    parseRec .out (csvField f) [] = [f] := by
  unfold csvField
  by_cases hq : needsQuote f
  · rw [if_pos hq]
    show parseRec .out ('"' :: (escQuotes f ++ ['"'])) [] = _
    rw [step_out_quote, show (['"'] : List Char) = '"' :: [] from rfl,
      parseRec_quoted f [] []]
    simp [parseRec]
  · rw [if_neg (by simp [hq])]
    have := parseRec_unquoted f (needsQuote_eq_false (by simpa using hq)) [] []
    simpa [parseRec] using this

/-- Splitting a serialized record recovers its fields. -/
theorem csvSplit_csvLine (f : List Char) (fs : List (List Char)) :
    csvSplit (csvLine (f :: fs)) = f :: fs := by
  induction fs generalizing f with
  | nil =>
    unfold csvSplit
    rw [show csvLine [f] = csvField f from rfl]
    exact parseRec_csvField_last f
  | cons f2 fs ih =>
    have h2 := ih f2
    unfold csvSplit at h2 ⊢
    rw [show csvLine (f :: f2 :: fs) = csvField f ++ ',' :: csvLine (f2 :: fs) from rfl,
      parseRec_csvField_comma, h2]

/-! ### Decimal round trip -/

theorem natDigitsRevFuel_ne_nil (fuel n : Nat) : natDigitsRevFuel fuel n ≠ [] := by
  cases fuel with
  | zero => simp [natDigitsRevFuel]
  | succ fuel =>
    unfold natDigitsRevFuel
    split <;> simp

theorem natDigitsRevFuel_lt_10 (fuel : Nat) :
    ∀ n, n ≤ fuel → ∀ d ∈ natDigitsRevFuel fuel n, d < 10 := by
  induction fuel with
  | zero =>
    intro n hn d hd
    simp only [natDigitsRevFuel, List.mem_singleton] at hd
    omega
  | succ fuel ih =>
    intro n hn d hd
    unfold natDigitsRevFuel at hd
    by_cases h10 : n < 10
    · rw [if_pos h10] at hd
      simp only [List.mem_singleton] at hd
      omega
    · rw [if_neg h10] at hd
      rcases List.mem_cons.mp hd with h | h
      · omega
      · exact ih (n / 10) (by omega) d h

theorem digitsVal_append_digit (l : List Char) (c : Char) (acc : Nat) :
    digitsVal (l ++ [c]) acc = digitsVal l acc * 10 + (c.toNat - 48) := by
  simp [digitsVal, List.foldl_append]

theorem digitChar_toNat_sub {d : Nat} (h : d < 10) :
    (Nat.digitChar d).toNat - 48 = d := by
  interval_cases d <;> decide

theorem digitChar_isDigit {d : Nat} (h : d < 10) : (Nat.digitChar d).isDigit = true := by
  interval_cases d <;> decide

theorem digitsVal_digits (fuel : Nat) :
    ∀ n acc, n ≤ fuel →
      digitsVal ((natDigitsRevFuel fuel n).reverse.map Nat.digitChar) acc =
        acc * 10 ^ (natDigitsRevFuel fuel n).length + n := by
  induction fuel with
  | zero =>
    intro n acc hn
    have hn0 : n = 0 := by omega
    subst hn0
    simp [natDigitsRevFuel, digitsVal]
    decide
  | succ fuel ih =>
    intro n acc hn
    unfold natDigitsRevFuel
    by_cases h10 : n < 10
    · rw [if_pos h10]
      simp only [List.reverse_singleton, List.map_cons, List.map_nil,
        List.length_singleton, pow_one]
      show digitsVal [Nat.digitChar n] acc = acc * 10 + n
      simp [digitsVal, digitChar_toNat_sub h10]
    · rw [if_neg h10]
      have hdiv : n / 10 ≤ fuel := by omega
      simp only [List.reverse_cons, List.map_append, List.map_cons, List.map_nil,
        List.length_cons]
      rw [digitsVal_append_digit, ih (n / 10) acc hdiv,
        digitChar_toNat_sub (show n % 10 < 10 by omega)]
      rw [Nat.add_mul, pow_succ]
      rw [Nat.mul_assoc]
      omega

theorem natToStr_data (n : Nat) :
    (natToStr n).data = (natDigitsRev n).reverse.map Nat.digitChar := rfl

theorem natToStr_all_digits (n : Nat) :
    ∀ c ∈ (natToStr n).data, c.isDigit = true := by
  intro c hc
  rw [natToStr_data] at hc
  simp only [List.mem_map, List.mem_reverse] at hc
  obtain ⟨d, hd, rfl⟩ := hc
  exact digitChar_isDigit (natDigitsRevFuel_lt_10 n n le_rfl d hd)

theorem parseNat_natToStr (n : Nat) : parseNat (natToStr n) = some n := by
  unfold parseNat
  rw [if_pos]
  · congr 1
    rw [natToStr_data]
    have := digitsVal_digits n n 0 le_rfl
    unfold natDigitsRev
    omega
  · constructor
    · rw [natToStr_data]
      simp [natDigitsRev, natDigitsRevFuel_ne_nil]
    · rw [List.all_eq_true]
      exact natToStr_all_digits n

theorem natToStr_head_not_sign (n : Nat) :
    ∃ c cs, (natToStr n).data = c :: cs ∧ ¬c = '-' ∧ ¬c = '+' := by
  rcases hd : (natToStr n).data with _ | ⟨c, cs⟩
  · exfalso
    rw [natToStr_data] at hd
    simp [natDigitsRev, natDigitsRevFuel_ne_nil] at hd
  · refine ⟨c, cs, rfl, ?_, ?_⟩
    · intro hc
      have := natToStr_all_digits n c (by rw [hd]; simp)
      rw [hc] at this
      exact absurd this (by decide)
    · intro hc
      have := natToStr_all_digits n c (by rw [hd]; simp)
      rw [hc] at this
      exact absurd this (by decide)

theorem parseInt_natToStr (n : Nat) : parseInt (natToStr n) = some (n : Int) := by
  unfold parseInt
  obtain ⟨c, cs, hd, hminus, hplus⟩ := natToStr_head_not_sign n
  rw [hd]
  simp only [parseIntList, if_neg hminus, if_neg hplus]
  rw [← hd]
  show (parseNat (natToStr n)).map (fun n => (n : Int)) = some (n : Int)
  rw [parseNat_natToStr]
  rfl

theorem parseInt_intToStr (i : Int) : parseInt (intToStr i) = some i := by
  unfold intToStr
  by_cases hneg : i < 0
  · rw [if_pos hneg]
    unfold parseInt
    rw [show ("-" ++ natToStr (-i).toNat).data = '-' :: (natToStr (-i).toNat).data
        from by simp]
    simp only [parseIntList, if_pos rfl]
    show (parseNat (natToStr (-i).toNat)).map (fun n => -(n : Int)) = some i
    rw [parseNat_natToStr]
    show some (-(((-i).toNat : Int))) = some i
    congr 1
    omega
  · rw [if_neg hneg]
    rw [parseInt_natToStr i.toNat]
    congr 1
    omega

/-! ### Table save/load -/

/-- A serialized coerced row parses back to the row whose score cells hold
the canonical decimal text. -/
theorem parseRowStr_serializeEntry (e : Entry) :
    parseRowStr (serializeEntry e) = some (rowOfEntry e) := by
  unfold parseRowStr serializeEntry rowOfEntry
  rw [show (⟨csvLine [e.date.data, e.day.data, e.time.data, e.task.data,
      (intToStr e.alertness).data, (intToStr e.energy).data]⟩ : String).data
      = csvLine [e.date.data, e.day.data, e.time.data, e.task.data,
        (intToStr e.alertness).data, (intToStr e.energy).data] from rfl,
    csvSplit_csvLine]

theorem optionMapList_parse_serialize (es : List Entry) :
    optionMapList parseRowStr (es.map serializeEntry) = some (es.map rowOfEntry) := by
  induction es with
  | nil => rfl
  | cons e es ih =>
    rw [List.map_cons, List.map_cons]
    unfold optionMapList
    rw [parseRowStr_serializeEntry, ih]

theorem optionMapList_eq_none {α β : Type} {f : α → Option β} {l : List α} {a : α}
    (hmem : a ∈ l) (hfa : f a = none) : optionMapList f l = none := by
  induction l with
  | nil => cases hmem
  | cons b l ih =>
    rcases List.mem_cons.mp hmem with rfl | hmem'
    · unfold optionMapList
      rw [hfa]
    · unfold optionMapList
      rw [ih hmem']
      rcases f b <;> rfl

/-- On a table of well-formed rows, `get_df` succeeds and its result
re-serializes to exactly the original rows. -/
theorem get_df_canonical (rows : List Row) (h : ∀ r ∈ rows, rowWF r = true) :
    ∃ es : List Entry, get_df rows = some es ∧ es.map rowOfEntry = rows := by
  induction rows with
  | nil => exact ⟨[], rfl, rfl⟩
  | cons r rows ih =>
    obtain ⟨es, hes, hmap⟩ := ih (fun x hx => h x (List.mem_cons_of_mem _ hx))
    have hr := h r (List.mem_cons_self r rows)
    unfold rowWF at hr
    simp only [Bool.and_eq_true] at hr
    obtain ⟨⟨⟨⟨⟨-, -⟩, -⟩, -⟩, ha⟩, he⟩ := hr
    unfold canonicalScore at ha he
    rcases hpa : parseInt r.alertness with - | a
    · rw [hpa] at ha; exact absurd ha (by simp)
    rcases hpe : parseInt r.energy with - | e
    · rw [hpe] at he; exact absurd he (by simp)
    rw [hpa] at ha
    rw [hpe] at he
    rw [decide_eq_true_eq] at ha he
    refine ⟨⟨r.date, r.day, r.time, r.task, a, e⟩ :: es, ?_, ?_⟩
    · unfold get_df at hes ⊢
      unfold optionMapList
      rw [show entryOfRow r = some ⟨r.date, r.day, r.time, r.task, a, e⟩ from by
        unfold entryOfRow; rw [hpa, hpe], hes]
    · rw [List.map_cons, hmap]
      unfold rowOfEntry
      rw [show (⟨r.date, r.day, r.time, r.task, a, e⟩ : Entry).alertness = a from rfl,
        show (⟨r.date, r.day, r.time, r.task, a, e⟩ : Entry).energy = e from rfl,
        ha, he]

/-- C2: saving the in-memory table and reloading the resulting file
returns exactly the same rows, in the same order, with identical field
values (the display re-sort after load is not part of the file
contents). -/
theorem save_then_load_round_trips (rows : List Row)
    (h : ∀ r ∈ rows, rowWF r = true) :
    ∃ file : List String, saveLines rows = some file ∧ loadLines file = some rows := by
  obtain ⟨es, hes, hmap⟩ := get_df_canonical rows h
  refine ⟨headerLine :: es.map serializeEntry, ?_, ?_⟩
  · unfold saveLines
    rw [hes]
    rfl
  · show optionMapList parseRowStr (es.map serializeEntry) = some rows
    rw [optionMapList_parse_serialize, hmap]

/-- Witness for C2: the single entry of the specification's scenario
("Read", alertness 5, energy 6) survives a save/load round trip. -/
theorem save_then_load_round_trips_witness :
    rowWF ⟨"2024-01-01", "Monday", "10:00", "Read", "5", "6"⟩ = true
    ∧ ∃ file : List String,
        saveLines [⟨"2024-01-01", "Monday", "10:00", "Read", "5", "6"⟩] = some file
        ∧ loadLines file = some [⟨"2024-01-01", "Monday", "10:00", "Read", "5", "6"⟩] :=
  ⟨by decide, save_then_load_round_trips _ (by decide)⟩

/-- C7: with no backing file, `on_mount` leaves the table empty and writes
a file with exactly one line — a header naming the six columns — and no
data rows; loading that file back yields the empty table. -/
theorem missing_file_initializes_header_only (lines : List String) :
    on_mount false lines = some ([], initFile)
    ∧ initFile = [initHeader]
    ∧ initHeader = "date, day, time, task, alertness, energy"
    ∧ initFile.length = 1
    ∧ loadLines initFile = some [] := by
  refine ⟨?_, rfl, rfl, rfl, rfl⟩
  unfold on_mount sortRows
  simp

/-- Counterexample to C4: a backing file whose `alertness` cell is the
non-numeric text "abc" loads without any error — `read_csv` keeps the
column as text — so the application starts normally instead of failing. -/
theorem load_accepts_non_numeric_scores :
    loadLines [headerLine, "2024-01-01,Monday,10:00,Read,abc,5"]
      = some [⟨"2024-01-01", "Monday", "10:00", "Read", "abc", "5"⟩]
    ∧ on_mount true [headerLine, "2024-01-01,Monday,10:00,Read,abc,5"] ≠ none := by
  have hl : loadLines [headerLine, "2024-01-01,Monday,10:00,Read,abc,5"]
      = some [⟨"2024-01-01", "Monday", "10:00", "Read", "abc", "5"⟩] := by decide
  refine ⟨hl, ?_⟩
  unfold on_mount
  rw [if_pos rfl, hl]
  simp

/-- C4 amended: loading a file with a non-numeric score cell succeeds and
keeps the bad row as text; the integer coercion error surfaces later, in
`get_df` — so the save (and plot) actions fail, not startup. -/
theorem non_numeric_scores_fail_at_get_df (rows : List Row) (r : Row)
    (hmem : r ∈ rows)
    (hbad : parseInt r.alertness = none ∨ parseInt r.energy = none) :
    get_df rows = none
    ∧ ∀ s : AppState, s.rows = rows → action_save s = none := by
  have hrow : entryOfRow r = none := by
    unfold entryOfRow
    rcases hbad with hb | hb
    · rw [hb]
    · rw [hb]
      rcases parseInt r.alertness <;> rfl
  have hdf : get_df rows = none := optionMapList_eq_none hmem hrow
  refine ⟨hdf, ?_⟩
  intro s hs
  unfold action_save saveLines
  rw [hs, hdf]
  rfl

/-- Witness for the amended C4: on the table holding the "abc" row, the
coercion and hence the save action fail. -/
theorem non_numeric_scores_fail_at_get_df_witness :
    get_df [⟨"2024-01-01", "Monday", "10:00", "Read", "abc", "5"⟩] = none
    ∧ action_save ⟨View.Table,
        [⟨"2024-01-01", "Monday", "10:00", "Read", "abc", "5"⟩],
        0, "", "", "", []⟩ = none :=
  ⟨(non_numeric_scores_fail_at_get_df
      [⟨"2024-01-01", "Monday", "10:00", "Read", "abc", "5"⟩]
      ⟨"2024-01-01", "Monday", "10:00", "Read", "abc", "5"⟩
      (by decide) (by decide)).1,
    (non_numeric_scores_fail_at_get_df
      [⟨"2024-01-01", "Monday", "10:00", "Read", "abc", "5"⟩]
      ⟨"2024-01-01", "Monday", "10:00", "Read", "abc", "5"⟩
      (by decide) (by decide)).2 _ rfl⟩

/-! ### Display sort order -/

theorem stringData_inj {s t : String} (h : s.data = t.data) : s = t :=
  congrArg String.mk h

theorem charListLt_trich (a : List Char) :
    ∀ b, charListLt a b = true ∨ a = b ∨ charListLt b a = true := by
  induction a with
  | nil =>
    intro b
    cases b with
    | nil => exact Or.inr (Or.inl rfl)
    | cons d ds => exact Or.inl rfl
  | cons x xs ih =>
    intro b
    cases b with
    | nil => exact Or.inr (Or.inr rfl)
    | cons d ds =>
      rcases lt_trichotomy x d with h | h | h
      · exact Or.inl (by simp [charListLt, h])
      · subst h
        rcases ih ds with h' | h' | h'
        · exact Or.inl (by simp [charListLt, lt_irrefl, h'])
        · exact Or.inr (Or.inl (by rw [h']))
        · exact Or.inr (Or.inr (by simp [charListLt, lt_irrefl, h']))
      · exact Or.inr (Or.inr (by simp [charListLt, h]))

theorem charListLt_trans (a : List Char) :
    ∀ b c, charListLt a b = true → charListLt b c = true →
      charListLt a c = true := by
  induction a with
  | nil =>
    intro b c h1 h2
    cases b with
    | nil => simp [charListLt] at h1
    | cons d ds =>
      cases c with
      | nil => simp [charListLt] at h2
      | cons e es => rfl
  | cons x xs ih =>
    intro b c h1 h2
    cases b with
    | nil => simp [charListLt] at h1
    | cons d ds =>
      cases c with
      | nil => simp [charListLt] at h2
      | cons e es =>
        simp only [charListLt] at h1 h2 ⊢
        split_ifs at h1 with hxd hdx
        · split_ifs at h2 with hde hed
          · rw [if_pos (lt_trans hxd hde)]
          · have hde' : d = e := le_antisymm (le_of_not_lt hed) (le_of_not_lt hde)
            subst hde'
            rw [if_pos hxd]
        · have hxd' : x = d := le_antisymm (le_of_not_lt hdx) (le_of_not_lt hxd)
          subst hxd'
          split_ifs at h2 with hde hed
          · rw [if_pos hde]
          · rw [if_neg hde, if_neg hed]
            exact ih ds es h1 h2

theorem rowKeyLe_total (a b : Row) : (rowKeyLe a b || rowKeyLe b a) = true := by
  unfold rowKeyLe
  simp only [Bool.or_eq_true, Bool.and_eq_true, beq_iff_eq]
  rcases charListLt_trich a.date.data b.date.data with h | h | h
  · exact Or.inl (Or.inl h)
  · have hdate : a.date = b.date := stringData_inj h
    rcases charListLt_trich a.time.data b.time.data with ht | ht | ht
    · exact Or.inl (Or.inr ⟨hdate, Or.inl ht⟩)
    · exact Or.inl (Or.inr ⟨hdate, Or.inr (stringData_inj ht)⟩)
    · exact Or.inr (Or.inr ⟨hdate.symm, Or.inl ht⟩)
  · exact Or.inr (Or.inl h)

theorem rowKeyLe_trans (a b c : Row) (h1 : rowKeyLe a b = true)
    (h2 : rowKeyLe b c = true) : rowKeyLe a c = true := by
  unfold rowKeyLe at h1 h2 ⊢
  simp only [Bool.or_eq_true, Bool.and_eq_true, beq_iff_eq] at h1 h2 ⊢
  rcases h1 with h1 | ⟨hd1, h1⟩
  · rcases h2 with h2 | ⟨hd2, -⟩
    · exact Or.inl (charListLt_trans _ _ _ h1 h2)
    · exact Or.inl (hd2 ▸ h1)
  · rcases h2 with h2 | ⟨hd2, h2⟩
    · exact Or.inl (hd1 ▸ h2)
    · refine Or.inr ⟨hd1.trans hd2, ?_⟩
      rcases h1 with h1 | h1
      · rcases h2 with h2 | h2
        · exact Or.inl (charListLt_trans _ _ _ h1 h2)
        · exact Or.inl (h2 ▸ h1)
      · rcases h2 with h2 | h2
        · exact Or.inl (h1 ▸ h2)
        · exact Or.inr (h1.trans h2)

/-- Counterexample to C3: two rows with the same `(date, time)` key come
out of the display sort in their original insertion order, not reversed —
Python's `sorted(..., reverse=True)` stays stable on equal keys. -/
theorem sort_keeps_tie_order :
    sortRows [⟨"2024-01-01", "Monday", "10:00", "first", "5", "5"⟩,
        ⟨"2024-01-01", "Monday", "10:00", "second", "6", "6"⟩]
      = [⟨"2024-01-01", "Monday", "10:00", "first", "5", "5"⟩,
        ⟨"2024-01-01", "Monday", "10:00", "second", "6", "6"⟩]
    ∧ sortRows [⟨"2024-01-01", "Monday", "10:00", "first", "5", "5"⟩,
        ⟨"2024-01-01", "Monday", "10:00", "second", "6", "6"⟩]
      ≠ [⟨"2024-01-01", "Monday", "10:00", "second", "6", "6"⟩,
        ⟨"2024-01-01", "Monday", "10:00", "first", "5", "5"⟩] := by
  have h1 : sortRows [⟨"2024-01-01", "Monday", "10:00", "first", "5", "5"⟩,
      ⟨"2024-01-01", "Monday", "10:00", "second", "6", "6"⟩]
      = [⟨"2024-01-01", "Monday", "10:00", "first", "5", "5"⟩,
        ⟨"2024-01-01", "Monday", "10:00", "second", "6", "6"⟩] :=
    List.mergeSort_of_sorted (by decide)
  refine ⟨h1, ?_⟩
  rw [h1]
  decide

/-- C3 amended: the sorted view is non-increasing in the `(date, time)`
key and is a permutation of the table; rows with equal keys keep their
original relative (insertion) order — a stable descending sort, with no
reversal of ties. -/
theorem sorted_view_descending_stable (rows : List Row) :
    (sortRows rows).Pairwise (fun a b => rowKeyLe b a = true)
    ∧ (sortRows rows).Perm rows
    ∧ ∀ a b : Row, rowKeyLe a b = true → rowKeyLe b a = true →
        List.Sublist [a, b] rows → List.Sublist [a, b] (sortRows rows) := by
  refine ⟨?_, List.mergeSort_perm rows _, ?_⟩
  · exact List.sorted_mergeSort
      (fun a b c h1 h2 => rowKeyLe_trans c b a h2 h1)
      (fun a b => rowKeyLe_total b a) rows
  · intro a b hab hba hsub
    exact List.pair_sublist_mergeSort
      (fun a b c h1 h2 => rowKeyLe_trans c b a h2 h1)
      (fun a b => rowKeyLe_total b a) hba hsub

/-- Witness for the amended C3 at a concrete tied pair. -/
theorem sorted_view_descending_stable_witness :
    List.Sublist
      [⟨"2024-01-01", "Monday", "10:00", "first", "5", "5"⟩,
        ⟨"2024-01-01", "Monday", "10:00", "second", "6", "6"⟩]
      (sortRows [⟨"2024-01-01", "Monday", "10:00", "first", "5", "5"⟩,
        ⟨"2024-01-01", "Monday", "10:00", "second", "6", "6"⟩]) :=
  (sorted_view_descending_stable _).2.2
    ⟨"2024-01-01", "Monday", "10:00", "first", "5", "5"⟩
    ⟨"2024-01-01", "Monday", "10:00", "second", "6", "6"⟩
    (by decide) (by decide) (by decide)

/-! ### Application shell actions -/

/-- C5: `submit_entries` re-validates all three fields; on any invalid
field it returns with no observable effect; on success it appends exactly
one row built from the rounded timestamp and the three field values,
clears all three inputs, re-sorts the table, and switches back to the
table view. -/
theorem submit_validates_appends_clears (s : AppState) (nowUs : Nat) :
    ((taskValid s.task && scoreValid s.alertness && scoreValid s.energy) = false →
      submit_entries s nowUs = s)
    ∧ ((taskValid s.task && scoreValid s.alertness && scoreValid s.energy) = true →
        (submit_entries s nowUs).rows.Perm
            (s.rows ++ [newRow nowUs s.task s.alertness s.energy])
          ∧ submit_entries s nowUs =
            { s with
              rows := sortRows (s.rows ++ [newRow nowUs s.task s.alertness s.energy]),
              task := "", alertness := "", energy := "", view := View.Table }) := by
  constructor
  · intro h
    unfold submit_entries
    rw [h]
    rfl
  · intro h
    constructor
    · unfold submit_entries
      rw [h]
      simp only [if_pos]
      exact List.mergeSort_perm _ _
    · unfold submit_entries
      rw [h]
      rfl

/-- Witness for C5: a valid submission ("Read", 5, 6) from the form view
appends the one rounded row, clears the fields and shows the table; an
invalid one (alertness 0) changes nothing. -/
theorem submit_validates_appends_clears_witness :
    (taskValid "Read" && scoreValid "5" && scoreValid "6") = true
    ∧ ((submit_entries ⟨View.Form, [], 0, "Read", "5", "6", []⟩ 36420000000).rows.Perm
        ([] ++ [newRow 36420000000 "Read" "5" "6"])
      ∧ submit_entries ⟨View.Form, [], 0, "Read", "5", "6", []⟩ 36420000000 =
        ⟨View.Table, sortRows ([] ++ [newRow 36420000000 "Read" "5" "6"]),
          0, "", "", "", []⟩)
    ∧ (taskValid "" && scoreValid "0" && scoreValid "6") = false
    ∧ submit_entries ⟨View.Form, [], 0, "", "0", "6", []⟩ 36420000000 =
        ⟨View.Form, [], 0, "", "0", "6", []⟩ :=
  ⟨by decide,
    (submit_validates_appends_clears ⟨View.Form, [], 0, "Read", "5", "6", []⟩
      36420000000).2 (by decide),
    by decide,
    (submit_validates_appends_clears ⟨View.Form, [], 0, "", "0", "6", []⟩
      36420000000).1 (by decide)⟩

/-- C8: the delete-row action leaves the whole state untouched unless the
table view is the visible one, while the save action acts on the rows and
file identically whatever the current view is. -/
theorem remove_needs_table_save_ignores_view (s : AppState) :
    (s.view ≠ View.Table → action_remove_row s = some s)
    ∧ ∀ v : View, action_save { s with view := v }
        = (action_save s).map (fun t => { t with view := v }) := by
  constructor
  · intro h
    unfold action_remove_row
    rw [if_neg h]
  · intro v
    unfold action_save
    show (saveLines s.rows).map _ = ((saveLines s.rows).map _).map _
    rcases saveLines s.rows with - | ls <;> rfl

/-- Witness for C8: deleting in the form view is a no-op, and saving from
the chart view writes the same file as saving from the table view. -/
theorem remove_needs_table_save_ignores_view_witness :
    action_remove_row ⟨View.Form,
        [⟨"2024-01-01", "Monday", "10:00", "Read", "5", "6"⟩], 0, "", "", "", []⟩
      = some ⟨View.Form,
        [⟨"2024-01-01", "Monday", "10:00", "Read", "5", "6"⟩], 0, "", "", "", []⟩
    ∧ action_save ⟨View.Chart,
        [⟨"2024-01-01", "Monday", "10:00", "Read", "5", "6"⟩], 0, "", "", "", []⟩
      = (action_save ⟨View.Table,
          [⟨"2024-01-01", "Monday", "10:00", "Read", "5", "6"⟩], 0, "", "", "", []⟩).map
          (fun t => { t with view := View.Chart }) :=
  ⟨(remove_needs_table_save_ignores_view ⟨View.Form,
      [⟨"2024-01-01", "Monday", "10:00", "Read", "5", "6"⟩], 0, "", "", "", []⟩).1
      (by decide),
    (remove_needs_table_save_ignores_view ⟨View.Table,
      [⟨"2024-01-01", "Monday", "10:00", "Read", "5", "6"⟩], 0, "", "", "", []⟩).2
      View.Chart⟩

/-- C10: in the table view, deleting on an empty table fails (the cursor
coordinate resolves to no row key and `CellDoesNotExist` is raised) rather
than being a no-op; on a non-empty table with a valid cursor it removes
exactly the row under the cursor. -/
theorem remove_row_empty_fails_nonempty_erases (s : AppState)
    (hview : s.view = View.Table) :
    (s.rows = [] → action_remove_row s = none)
    ∧ (s.cursor < s.rows.length →
        action_remove_row s = some { s with rows := s.rows.eraseIdx s.cursor }) := by
  constructor
  · intro h
    unfold action_remove_row
    rw [if_pos hview, h]
    simp
  · intro h
    unfold action_remove_row
    rw [if_pos hview, if_pos h]

/-- Witness for C10: deleting on the empty table raises; with the cursor
on the first of two rows, exactly that row disappears. -/
theorem remove_row_empty_fails_nonempty_erases_witness :
    action_remove_row ⟨View.Table, [], 0, "", "", "", []⟩ = none
    ∧ action_remove_row ⟨View.Table,
        [⟨"2024-01-01", "Monday", "10:00", "Read", "5", "6"⟩,
          ⟨"2024-01-02", "Tuesday", "11:00", "Nap", "2", "3"⟩], 0, "", "", "", []⟩
      = some ⟨View.Table,
        [⟨"2024-01-02", "Tuesday", "11:00", "Nap", "2", "3"⟩], 0, "", "", "", []⟩ :=
  ⟨(remove_row_empty_fails_nonempty_erases ⟨View.Table, [], 0, "", "", "", []⟩
      rfl).1 rfl,
    (remove_row_empty_fails_nonempty_erases ⟨View.Table,
      [⟨"2024-01-01", "Monday", "10:00", "Read", "5", "6"⟩,
        ⟨"2024-01-02", "Tuesday", "11:00", "Nap", "2", "3"⟩], 0, "", "", "", []⟩
      rfl).2 (by decide)⟩

/-! ### Charts -/

theorem strLe_total (a b : String) : (strLe a b || strLe b a) = true := by
  unfold strLe
  simp only [Bool.or_eq_true, beq_iff_eq]
  rcases charListLt_trich a.data b.data with h | h | h
  · exact Or.inl (Or.inl h)
  · exact Or.inl (Or.inr (stringData_inj h))
  · exact Or.inr (Or.inl h)

theorem strLe_trans (a b c : String) (h1 : strLe a b = true)
    (h2 : strLe b c = true) : strLe a c = true := by
  unfold strLe at h1 h2 ⊢
  simp only [Bool.or_eq_true, beq_iff_eq] at h1 h2 ⊢
  rcases h1 with h1 | h1
  · rcases h2 with h2 | h2
    · exact Or.inl (charListLt_trans _ _ _ h1 h2)
    · exact Or.inl (h2 ▸ h1)
  · rcases h2 with h2 | h2
    · exact Or.inl (h1 ▸ h2)
    · exact Or.inr (h1.trans h2)

/-- C6: each chart series has one bucket per distinct time value, strictly
ascending by time-of-day; each bucket's height is the median of the
requested metric over the entries at that time (alertness + energy for
the total chart); energies [3, 5, 7] at "09:00" give median 5. -/
theorem charts_bucket_by_time_median (es : List Entry) :
    (uniqueTimesSorted es).Pairwise (fun a b => charListLt a.data b.data = true)
    ∧ (∀ e ∈ es, e.time ∈ uniqueTimesSorted es)
    ∧ (∀ metric : Entry → Int, ∀ p ∈ plotSeries es metric,
        p.2 = medianQ (bucketValues es p.1 metric))
    ∧ plot_total es = plotSeries es (fun e => e.energy + e.alertness)
    ∧ plot_alertness es = plotSeries es Entry.alertness
    ∧ plot_energy es = plotSeries es Entry.energy
    ∧ plot_energy [⟨"2024-01-01", "Monday", "09:00", "a", 4, 3⟩,
        ⟨"2024-01-01", "Monday", "09:00", "b", 4, 5⟩,
        ⟨"2024-01-01", "Monday", "09:00", "c", 4, 7⟩] = [("09:00", 5)] := by
  refine ⟨?_, ?_, ?_, rfl, rfl, rfl, ?_⟩
  · have hs : (uniqueTimesSorted es).Pairwise (fun a b => strLe a b = true) :=
      List.sorted_mergeSort (fun a b c => strLe_trans a b c)
        (fun a b => strLe_total a b) _
    have hn : (uniqueTimesSorted es).Nodup :=
      ((List.mergeSort_perm _ _).nodup_iff).mpr (List.nodup_dedup _)
    refine List.Pairwise.imp ?_ (hs.and hn)
    intro a b hab
    obtain ⟨hle, hne⟩ := hab
    unfold strLe at hle
    simp only [Bool.or_eq_true, beq_iff_eq] at hle
    rcases hle with h | h
    · exact h
    · exact absurd h hne
  · intro e he
    unfold uniqueTimesSorted
    rw [List.mem_mergeSort, List.mem_dedup]
    exact List.mem_map_of_mem Entry.time he
  · intro metric p hp
    unfold plotSeries at hp
    rcases List.mem_map.mp hp with ⟨t, ht, rfl⟩
    rfl
  · unfold plot_energy plotSeries uniqueTimesSorted bucketValues
    rw [show ([⟨"2024-01-01", "Monday", "09:00", "a", 4, 3⟩,
        ⟨"2024-01-01", "Monday", "09:00", "b", 4, 5⟩,
        ⟨"2024-01-01", "Monday", "09:00", "c", 4, 7⟩] : List Entry).map Entry.time
        = ["09:00", "09:00", "09:00"] from rfl]
    rw [show (["09:00", "09:00", "09:00"] : List String).dedup = ["09:00"] from by
      decide]
    rw [List.mergeSort_singleton]
    rw [show (["09:00"] : List String).map (fun t => (t, medianQ
        ((([⟨"2024-01-01", "Monday", "09:00", "a", 4, 3⟩,
            ⟨"2024-01-01", "Monday", "09:00", "b", 4, 5⟩,
            ⟨"2024-01-01", "Monday", "09:00", "c", 4, 7⟩] : List Entry).filter
          (fun e => e.time = t)).map Entry.energy)))
        = [("09:00", medianQ [3, 5, 7])] from rfl]
    unfold medianQ
    rw [show List.mergeSort [(3 : Int), 5, 7] (fun a b => decide (a ≤ b)) = [3, 5, 7]
      from List.mergeSort_of_sorted (by decide)]
    norm_num

/-- Witness for C6 at a one-entry table: its time is a bucket, and the
bucket's value is the median of its metric values. -/
theorem charts_bucket_by_time_median_witness :
    ("09:00" : String) ∈
      uniqueTimesSorted [⟨"2024-01-01", "Monday", "09:00", "a", 4, 3⟩]
    ∧ (("09:00" : String),
        medianQ (bucketValues [⟨"2024-01-01", "Monday", "09:00", "a", 4, 3⟩]
          "09:00" Entry.energy)).2
      = medianQ (bucketValues [⟨"2024-01-01", "Monday", "09:00", "a", 4, 3⟩]
          "09:00" Entry.energy) := by
  constructor
  · exact (charts_bucket_by_time_median
      [⟨"2024-01-01", "Monday", "09:00", "a", 4, 3⟩]).2.1
      ⟨"2024-01-01", "Monday", "09:00", "a", 4, 3⟩ (by decide)
  · have hps : plotSeries [⟨"2024-01-01", "Monday", "09:00", "a", 4, 3⟩] Entry.energy
        = [("09:00", medianQ (bucketValues
            [⟨"2024-01-01", "Monday", "09:00", "a", 4, 3⟩] "09:00" Entry.energy))] := by
      unfold plotSeries uniqueTimesSorted
      rw [show ([⟨"2024-01-01", "Monday", "09:00", "a", 4, 3⟩] : List Entry).map
            Entry.time = ["09:00"] from rfl,
        show (["09:00"] : List String).dedup = ["09:00"] from by decide,
        List.mergeSort_singleton]
      rfl
    exact (charts_bucket_by_time_median
      [⟨"2024-01-01", "Monday", "09:00", "a", 4, 3⟩]).2.2.1 Entry.energy
      ("09:00", medianQ (bucketValues
        [⟨"2024-01-01", "Monday", "09:00", "a", 4, 3⟩] "09:00" Entry.energy))
      (by rw [hps]; exact List.mem_singleton_self _)

/-- The imperative rounding computation collapses to the midnight-anchored
closed form. -/
theorem roundTime1800_eq_spec (us : Nat) : roundTime1800 us = specRoundHalfHour us := by
  unfold roundTime1800 round_time specRoundHalfHour secondsSinceMidnight microsecondOf dayIndex
  omega

/-- C1: `round_time(dt, round_to=1800)` anchors `dt` to the nearest
half-hour boundary: it computes seconds since midnight, adds half the
interval, integer-divides by the interval and multiplies back, so the
boundary chosen is within 900 seconds of `dt` with ties on the 15-minute
midpoint rounding up; 10:07 rounds to 10:00, 10:23 rounds to 10:30, and
23:50 rounds to 00:00 of the next day. -/
theorem round_time_rounds_to_nearest_half_hour (us : Nat) :
    roundTime1800 us = specRoundHalfHour us
    ∧ ((secondsSinceMidnight us + 900) / 1800 * 1800) % 1800 = 0
    ∧ (secondsSinceMidnight us + 900) / 1800 * 1800 ≤ secondsSinceMidnight us + 900
    ∧ secondsSinceMidnight us < (secondsSinceMidnight us + 900) / 1800 * 1800 + 900
    ∧ (hourOf 36420000000 = 10 ∧ minuteOf 36420000000 = 7
        ∧ roundTime1800 36420000000 = 36000000000
        ∧ hourOf 36000000000 = 10 ∧ minuteOf 36000000000 = 0
        ∧ dayIndex 36000000000 = dayIndex 36420000000)
    ∧ (hourOf 37380000000 = 10 ∧ minuteOf 37380000000 = 23
        ∧ roundTime1800 37380000000 = 37800000000
        ∧ hourOf 37800000000 = 10 ∧ minuteOf 37800000000 = 30)
    ∧ (hourOf 85800000000 = 23 ∧ minuteOf 85800000000 = 50
        ∧ dayIndex 85800000000 = 0
        ∧ roundTime1800 85800000000 = 86400000000
        ∧ hourOf 86400000000 = 0 ∧ minuteOf 86400000000 = 0
        ∧ dayIndex 86400000000 = 1) := by
  refine ⟨roundTime1800_eq_spec us, by omega, by omega, ?_, by decide, by decide, by decide⟩
  unfold secondsSinceMidnight
  omega

/-- C9: the result of `round_time(dt, round_to=1800)` always lies on a
half-hour boundary — its minute is 0 or 30 and its second and microsecond
are both 0. -/
theorem round_time_lands_on_half_hour_boundary (us : Nat) :
    (minuteOf (roundTime1800 us) = 0 ∨ minuteOf (roundTime1800 us) = 30)
    ∧ secondOf (roundTime1800 us) = 0
    ∧ microsecondOf (roundTime1800 us) = 0 := by
  rw [roundTime1800_eq_spec us]
  unfold specRoundHalfHour minuteOf secondOf microsecondOf secondsSinceMidnight dayIndex
  omega

end WhenTracker

